import Mathlib

/-!
Shallow embedding of the intelligence-brief aggregation pipeline
(src/intelligence_brief/: models.py, aggregator.py, analysis.py).

Modelling conventions:
* Python `datetime` values are modelled by `PyDatetime`: microseconds since
  the epoch plus an awareness flag.  A naive value is interpreted at face
  value in UTC, which is exactly what `replace(tzinfo=timezone.utc)` does,
  so normalisation keeps the microsecond count and only flips the flag.
* Python `float` scores are modelled by `ℚ`; every comparison the code
  performs (`0.3`, `0.35`, `0.5` and integer-valued bucket scores) is exact
  in both representations, so the order outcomes agree.
* Python sets of strings are modelled by `List String` with membership;
  `str(item.url)` is modelled by storing the URL directly as a `String`.
* `list.sort(key=f, reverse=True)` is a stable descending sort; it is
  modelled by the stable insertion sort `sortDesc`.
* The analysis API call of `ContentAnalyzer.analyze_item` is an external
  effect; its three observable outcomes (successful JSON parse, JSON parse
  failure, API exception) are modelled by `AnalysisOutcome`, and a run of
  `batch_analyze` is parametrised by an oracle assigning an outcome to each
  item.
-/

namespace IntelligenceBrief

/-- `SourceType` enum from models.py. -/
inductive SourceType where
  | substack
  | arxiv
  | hacker_news
  | github
  | reddit
  | youtube
  | company_blog
  | twitter
  | medium
  | huggingface
  | nyt
  | rss
  | podcast
deriving DecidableEq, Repr

/-- The string value of each `SourceType` member (models.py). -/
def SourceType.value : SourceType → String
  | .substack => "substack"
  | .arxiv => "arxiv"
  | .hacker_news => "hacker_news"
  | .github => "github"
  | .reddit => "reddit"
  | .youtube => "youtube"
  | .company_blog => "company_blog"
  | .twitter => "twitter"
  | .medium => "medium"
  | .huggingface => "huggingface"
  | .nyt => "nyt"
  | .rss => "rss"
  | .podcast => "podcast"

/-- `ContentType` enum from models.py. -/
inductive ContentType where
  | article
  | paper
  | repository
  | discussion
  | video
  | announcement
  | note
  | podcast
deriving DecidableEq, Repr

/-- A Python `datetime`: microseconds since the epoch (naive values read at
face value in UTC) and whether the value carries timezone information. -/
structure PyDatetime where
  usec : Int
  aware : Bool
deriving DecidableEq, Repr

/-- `ContentItem` from models.py.  `url` holds `str(item.url)`. -/
structure ContentItem where
  id : String
  source_type : SourceType
  source_name : String
  content_type : ContentType
  title : String
  url : String
  author : Option String
  published_at : Option PyDatetime
  fetched_at : Int
  summary : Option String
  full_text : Option String
  tags : List String
  engagement : Option (List (String × ℚ))
  relevance_score : Option ℚ
  insight_summary : Option String
  actionable_ideas : List String
deriving DecidableEq, Repr

/-- Stable descending insert for `sortDesc` (an element is placed before the
first element whose key is not larger, so earlier elements with equal keys
stay first, matching Python's stable `sort(key, reverse=True)`). -/
def insertDesc {α : Type} (f : α → ℚ) (a : α) : List α → List α
  | [] => [a]
  | b :: l => if f b ≤ f a then a :: b :: l else b :: insertDesc f a l

/-- Stable descending sort by a `ℚ`-valued key, modelling Python's
`list.sort(key=f, reverse=True)`. -/
def sortDesc {α : Type} (f : α → ℚ) : List α → List α
  | [] => []
  | a :: l => insertDesc f a (sortDesc f l)

/-- One step of building the insertion-ordered `by_source` dict: append the
item to the group of its source type, or open a new group at the end.
Python groups by `item.source_type.value`; since `SourceType.value` is
injective, grouping by the member itself yields the same partition. -/
def addToGroups (gs : List (SourceType × List ContentItem)) (i : ContentItem) :
    List (SourceType × List ContentItem) :=
  match gs with
  | [] => [(i.source_type, [i])]
  | (k, v) :: rest =>
      if k = i.source_type then (k, v ++ [i]) :: rest
      else (k, v) :: addToGroups rest i

/-- The insertion-ordered `by_source` dict used by both
`ContentAnalyzer.batch_analyze` and `BriefGenerator._select_diverse_items`. -/
def group_by_source_type (items : List ContentItem) :
    List (SourceType × List ContentItem) :=
  items.foldl addToGroups []

/-- First pass of the selection phase of `ContentAnalyzer.batch_analyze`
(analysis.py): group by source type, sort each group by pre-score
descending, take `min_per_source = 5` from every group.  The heuristic
`item_score` closure (keywords, authority, recency, engagement) is passed
in as the `score` parameter. -/
def batch_first_pass (score : ContentItem → ℚ) (items : List ContentItem) :
    List ContentItem :=
  let by_source := (group_by_source_type items).map
    (fun g => (g.1, sortDesc score g.2))
  let min_per_source := 5
  (by_source.map (fun g => g.2.take min_per_source)).flatten

/-- Selection phase of `ContentAnalyzer.batch_analyze` (analysis.py): the
5-per-type first pass, then fill remaining slots up to `max_items` with
the highest-scoring not-yet-selected items, and truncate to `max_items`. -/
def batch_select (score : ContentItem → ℚ) (items : List ContentItem)
    (max_items : Nat) : List ContentItem :=
  let selected_first := batch_first_pass score items
  let selected_ids := selected_first.map (fun i => i.id)
  let remaining_slots := max_items - selected_first.length
  let selected :=
    if 0 < remaining_slots then
      let all_remaining := sortDesc score
        (items.filter (fun i => !(selected_ids.contains i.id)))
      selected_first ++ all_remaining.take remaining_slots
    else selected_first
  selected.take max_items

/-- The authority bucket of `item_score` in `batch_analyze` (analysis.py).
On an item whose title and summary contain no keyword, whose
`published_at` is `None` and whose `engagement` is `None`, the other three
buckets contribute 0, so `item_score` equals this function. -/
def item_score_authority (item : ContentItem) : ℚ :=
  let v := item.source_type.value
  if v ∈ ["nyt", "wapo", "verge", "ars_technica", "techcrunch", "wired",
          "mit_tech_review"] then 55
  else if v = "company_blog" then 45
  else if v = "arxiv" then 35
  else if v = "substack" then 25
  else if v = "github" then 20
  else if v ∈ ["reddit", "hacker_news"] then 15
  else 0

/-- Parsed JSON object of a successful analysis response
(`ContentAnalyzer.analyze_item`); `none` fields model absent keys. -/
structure AnalysisResult where
  newsworthiness_score : Option ℚ
  category : Option String
  insight_summary : Option String
  project_relevant : Bool
  project_note : Option String
deriving DecidableEq, Repr

/-- The three observable outcomes of the analysis API call in
`ContentAnalyzer.analyze_item`. -/
inductive AnalysisOutcome where
  | apiFailure
  | parseFailure
  | parsed (result : AnalysisResult)
deriving DecidableEq, Repr

/-- `ContentAnalyzer.analyze_item` (analysis.py): on API failure or a JSON
parse failure the item gets the default score 0.3 and an explanatory
marker; on success the analysis fields are filled from the parsed JSON
(`result.get` defaults 0.5, "other", False, ""). -/
def analyze_item (outcome : AnalysisOutcome) (item : ContentItem) : ContentItem :=
  match outcome with
  | .apiFailure =>
      { item with
        relevance_score := some (mkRat 3 10),
        insight_summary := some "Analysis failed - API error",
        actionable_ideas := [] }
  | .parseFailure =>
      { item with
        relevance_score := some (mkRat 3 10),
        insight_summary := some "Analysis failed - invalid JSON response",
        actionable_ideas := [] }
  | .parsed r =>
      let category := r.category.getD "other"
      let project_note := r.project_note.getD ""
      let ideas :=
        if r.project_relevant ∧ project_note ≠ "" then
          ["category:" ++ category, "project:" ++ project_note]
        else ["category:" ++ category]
      { item with
        relevance_score := some (r.newsworthiness_score.getD (mkRat 1 2)),
        insight_summary := r.insight_summary,
        actionable_ideas := ideas }

/-- `ContentAnalyzer.batch_analyze` with cap 50 (analysis.py): select, then
analyze each selected item sequentially; the API outcome of each call is
given by the `outcomes` oracle (the inter-call sleep has no effect on the
result). -/
def batch_analyze (outcomes : ContentItem → AnalysisOutcome)
    (score : ContentItem → ℚ) (items : List ContentItem) : List ContentItem :=
  (batch_select score items 50).map (fun i => analyze_item (outcomes i) i)

/-- Loop body of `Aggregator._filter_by_time` (aggregator.py): keep an item
with no `published_at`; otherwise normalise a naive timestamp to UTC
(`replace(tzinfo=timezone.utc)` keeps the clock reading, so the
microsecond count is unchanged) and keep the item iff its timestamp is
strictly after the cutoff. -/
def filter_by_time_step (cutoff : Int) (filtered : List ContentItem)
    (item : ContentItem) : List ContentItem :=
  match item.published_at with
  | none => filtered ++ [item]
  | some pub =>
      let pubN := if pub.aware then pub else { pub with aware := true }
      if cutoff < pubN.usec then filtered ++ [item] else filtered

/-- `Aggregator._filter_by_time` (aggregator.py).  The Python loop appends
kept items to a fresh list, leaving the input unmutated. -/
def filter_by_time (now : Int) (hours : Int) (items : List ContentItem) :
    List ContentItem :=
  items.foldl (filter_by_time_step (now - hours * 3600 * 1000000)) []

/-- The retention predicate of `_filter_by_time`, as a Boolean: no
timestamp, or (normalised) timestamp strictly after the cutoff. -/
def time_keep (cutoff : Int) (item : ContentItem) : Bool :=
  match item.published_at with
  | none => true
  | some pub =>
      let pubN := if pub.aware then pub else { pub with aware := true }
      decide (cutoff < pubN.usec)

/-- Loop of `Aggregator._deduplicate` with its `seen_urls` set. -/
def dedupGo (seen : List String) : List ContentItem → List ContentItem
  | [] => []
  | i :: rest =>
      if i.url ∈ seen then dedupGo seen rest
      else i :: dedupGo (i.url :: seen) rest

/-- `Aggregator._deduplicate` (aggregator.py): keep the first occurrence of
each URL, in encounter order. -/
def deduplicate (items : List ContentItem) : List ContentItem :=
  dedupGo [] items

/-- The cross-run filter of `Aggregator.aggregate_and_analyze`
(aggregator.py line 178):
`fresh_items = [i for i in unique_items if str(i.url) not in recently_shown]`. -/
def filter_recently_shown (recently_shown : List String)
    (items : List ContentItem) : List ContentItem :=
  items.filter (fun i => !(recently_shown.contains i.url))

/-- The brief-history collaborator as seen by the pipeline: either available
with its rolling-window set of previously shown URLs, or unavailable. -/
inductive HistoryStore where
  | available (urls : List String)
  | unavailable
deriving DecidableEq, Repr

/-- Modelled from the spec: `get_recently_shown_urls` is imported by
`Aggregator.aggregate_and_analyze` from brief_storage.py but is not defined
in src/ (brief_storage.py contains only the brief CRUD helpers).  Spec
§4.3 / §7(d): it returns the rolling-window set of previously shown URLs,
and degrades to the empty set — rather than failing — when the history
collaborator is unavailable. -/
def get_recently_shown_urls (store : HistoryStore) : List String :=
  match store with
  | .available urls => urls
  | .unavailable => []

/-- A source adapter after its `fetch()` completed under
`asyncio.gather(..., return_exceptions=True)`: a name plus either a record
list or a raised exception. -/
structure Source where
  source_name : String
  fetch_result : Except String (List ContentItem)

/-- `Aggregator.fetch_all` (aggregator.py): concatenate the record lists of
the successful sources in order; a failed source contributes nothing (its
name is still appended to the local `sources_checked` list, modelled by
`sources_checked_of`). -/
def fetch_all (sources : List Source) : List ContentItem :=
  sources.foldl
    (fun acc s =>
      match s.fetch_result with
      | .error _ => acc
      | .ok items => acc ++ items)
    []

/-- The attempted-sources list reported by the pipeline: both the loop in
`fetch_all` and the comprehension in `aggregate_and_analyze` list every
configured source's name, regardless of fetch success. -/
def sources_checked_of (sources : List Source) : List String :=
  sources.map (fun s => s.source_name)

/-- `Aggregator.aggregate_and_analyze` (aggregator.py): fetch, time-filter,
same-run dedup, cross-run dedup against the history store, analyze. -/
def aggregate_and_analyze (sources : List Source) (now hours : Int)
    (store : HistoryStore) (outcomes : ContentItem → AnalysisOutcome)
    (score : ContentItem → ℚ) : List ContentItem × List String :=
  let all_items := fetch_all sources
  let sources_checked := sources_checked_of sources
  let recent_items := filter_by_time now hours all_items
  let unique_items := deduplicate recent_items
  let recently_shown := get_recently_shown_urls store
  let fresh_items := filter_recently_shown recently_shown unique_items
  let analyzed_items := batch_analyze outcomes score fresh_items
  (analyzed_items, sources_checked)

/-- The sort at the top of `BriefGenerator.generate_brief`:
`sorted(items, key=lambda x: x.relevance_score or 0, reverse=True)`. -/
def sorted_by_relevance (items : List ContentItem) : List ContentItem :=
  sortDesc (fun i => i.relevance_score.getD 0) items

/-- `relevant_items` of `BriefGenerator.generate_brief`: the sorted items at
or above the 0.35 relevance cutoff. -/
def relevant_items (items : List ContentItem) : List ContentItem :=
  (sorted_by_relevance items).filter
    (fun i => decide (mkRat 7 20 ≤ i.relevance_score.getD 0))

/-- Second pass of `BriefGenerator._select_diverse_items`: fill remaining
slots with not-yet-used items in list order, stopping at `target`. -/
def fill_remaining (target : Nat) (used : List String)
    (sel : List ContentItem) : List ContentItem → List ContentItem
  | [] => sel
  | i :: rest =>
      if target ≤ sel.length then sel
      else if i.id ∈ used then fill_remaining target used sel rest
      else fill_remaining target (i.id :: used) (sel ++ [i]) rest

/-- First pass of `BriefGenerator._select_diverse_items`: the best (first,
since the input is already relevance-sorted) item of each source-type
group, while fewer than `target` are selected. -/
def diverse_first_pass (target : Nat)
    (groups : List (SourceType × List ContentItem)) :
    List ContentItem × List String :=
  groups.foldl
    (fun acc g =>
      match g.2 with
      | [] => acc
      | best :: _ =>
          if acc.1.length < target then (acc.1 ++ [best], best.id :: acc.2)
          else acc)
    ([], [])

/-- `BriefGenerator._select_diverse_items` (aggregator.py). -/
def select_diverse_items (items : List ContentItem) (target_count : Nat) :
    List ContentItem :=
  if items.isEmpty then []
  else
    let by_source := group_by_source_type items
    let fp := diverse_first_pass target_count by_source
    fill_remaining target_count fp.2 fp.1 items

/-- The headline tier computed in `BriefGenerator.generate_brief`:
`self._select_diverse_items(relevant_items, target_count=7)`. -/
def whats_moving_items (items : List ContentItem) : List ContentItem :=
  select_diverse_items (relevant_items items) 7

/-- `worth_a_click` computed in `BriefGenerator.generate_brief`: the
relevant items whose id was not used by the headline tier, first 15. -/
def worth_a_click (items : List ContentItem) : List ContentItem :=
  let used_ids := (whats_moving_items items).map (fun i => i.id)
  ((relevant_items items).filter (fun i => !(used_ids.contains i.id))).take 15

/-- Keys of the `sections` dict of
`BriefGenerator._categorize_for_sections`. -/
inductive SectionKey where
  | industry_news
  | research
  | tools
  | other
deriving DecidableEq, Repr

/-- The per-section maximum sizes assigned in
`BriefGenerator._categorize_for_sections`. -/
def section_max : SectionKey → Nat
  | .research => 5
  | .tools => 6
  | .industry_news => 6
  | .other => 8

/-- The category tag extracted from `actionable_ideas`: the first idea
starting with "category:", with that marker removed (Python
`idea.replace`). -/
def item_category (item : ContentItem) : Option String :=
  item.actionable_ideas.findSome?
    (fun idea =>
      if idea.startsWith "category:" then
        some (idea.replace "category:" "")
      else none)

/-- Target-section dispatch of `BriefGenerator._categorize_for_sections`. -/
def target_of (item : ContentItem) : SectionKey :=
  let source := item.source_type.value
  let category := item_category item
  if source ∈ ["arxiv"] ∨ category = some "research" then .research
  else if source ∈ ["github"] ∨ category = some "tools" then .tools
  else if source ∈ ["nyt", "wapo", "verge", "ars_technica", "techcrunch",
                    "wired", "mit_tech_review", "company_blog"]
          ∨ category = some "industry_news" then .industry_news
  else .other

/-- Loop state of `_categorize_for_sections`: the four section lists and the
`section_source_counts` dicts. -/
structure CatState where
  sections : SectionKey → List ContentItem
  counts : SectionKey → String → Nat

/-- One iteration of the `_categorize_for_sections` loop: skip items already
used in the narrative, then append to the target section iff the section is
below its maximum and the item's source has fewer than `MAX_PER_SOURCE = 2`
items in that section. -/
def categorize_step (exclude_urls : List String) (st : CatState)
    (item : ContentItem) : CatState :=
  if item.url ∈ exclude_urls then st
  else
    let target := target_of item
    if (st.sections target).length < section_max target then
      if st.counts target item.source_name < 2 then
        { sections := fun k =>
            if k = target then st.sections target ++ [item] else st.sections k,
          counts := fun k n =>
            if k = target ∧ n = item.source_name then st.counts target item.source_name + 1
            else st.counts k n }
      else st
    else st

/-- `BriefGenerator._categorize_for_sections` (aggregator.py). -/
def categorize_for_sections (items : List ContentItem)
    (exclude_urls : List String) : SectionKey → List ContentItem :=
  (items.foldl (categorize_step exclude_urls)
    { sections := fun _ => [], counts := fun _ _ => 0 }).sections

/-- A concrete record with the given source type and index: no keywords in
the title, no timestamp, no engagement, distinct id and URL per (type,
index) pair.  Used to build concrete inputs for witnesses and
counterexamples. -/
def mkItem (t : SourceType) (n : Nat) : ContentItem :=
  { id := t.value ++ toString n
    source_type := t
    source_name := t.value
    content_type := .article
    title := "x"
    url := "https://example.com/" ++ t.value ++ toString n
    author := none
    published_at := none
    fetched_at := 0
    summary := none
    full_text := none
    tags := []
    engagement := none
    relevance_score := none
    insight_summary := none
    actionable_ideas := [] }

/-- Eleven distinct source types, five records each (55 records): the pool
on which the diversity floor of `batch_select` fails, because the
unconditional 5-per-type first pass already holds 55 records and the final
truncation to 50 cuts the whole last group. -/
def cexPoolC1 : List ContentItem :=
  (([.substack, .arxiv, .hacker_news, .github, .reddit, .youtube,
     .company_blog, .twitter, .medium, .huggingface, .podcast] :
      List SourceType).map
    (fun t => (List.range 5).map (mkItem t))).flatten

/-- Five records of a single source type: a pool on which the amended
diversity floor applies. -/
def witPoolC1 : List ContentItem :=
  (List.range 5).map (mkItem .arxiv)

/-- A failed-analysis input item for claim C5. -/
def cexItemC5 : ContentItem := mkItem .reddit 0

/-- Records for the cross-run suppression witness: the first one's URL is in
the seen set. -/
def witSeenItemC3 : ContentItem := mkItem .nyt 0

/-- Second record of the C3 witness batch, with a URL not in the seen set. -/
def witFreshItemC3 : ContentItem := mkItem .nyt 1

/-- Time-filter witness: a record with no timestamp. -/
def witNoTimeItem : ContentItem := mkItem .rss 0

/-- Time-filter witness: a record exactly at `now - window` (aware). -/
def witBoundaryItem : ContentItem :=
  { mkItem .rss 1 with published_at := some { usec := 0, aware := true } }

/-- Time-filter witness: a zoneless record one microsecond after the
boundary. -/
def witAfterItem : ContentItem :=
  { mkItem .rss 2 with published_at := some { usec := 1, aware := false } }

/-- Input batch of the time-filter witness, evaluated at `now = 0`,
`hours = 0`. -/
def witTimeItems : List ContentItem :=
  [witNoTimeItem, witBoundaryItem, witAfterItem]

/-- Dedup witness batch: the third record repeats the first one's URL. -/
def witDupItem : ContentItem := { mkItem .github 2 with url := (mkItem .github 0).url }

/-- Input batch of the dedup witness. -/
def witDedupItems : List ContentItem :=
  [mkItem .github 0, mkItem .github 1, witDupItem]

/-- A scored record (relevance 0.5) for the brief-assembly witnesses. -/
def mkScoredItem (n : Nat) : ContentItem :=
  { mkItem .arxiv n with relevance_score := some (mkRat 1 2) }

/-- Eight scored records of one source type: the headline tier takes the
first seven, the eighth lands in `worth_a_click`. -/
def witPoolC10 : List ContentItem :=
  (List.range 8).map mkScoredItem

/-! ### Helper lemmas -/

theorem fetch_all_go (sources : List Source) :
    ∀ acc : List ContentItem,
      sources.foldl
        (fun acc s =>
          match s.fetch_result with
          | .error _ => acc
          | .ok items => acc ++ items) acc
      = acc ++ (sources.filterMap (fun s => s.fetch_result.toOption)).flatten := by
  induction sources with
  | nil => intro acc; simp
  | cons s rest ih =>
      intro acc
      cases hres : s.fetch_result with
      | error e => simp [List.foldl_cons, hres, ih, List.filterMap_cons, Except.toOption]
      | ok items =>
          simp [List.foldl_cons, hres, ih, List.filterMap_cons, Except.toOption,
            List.append_assoc]

theorem filter_by_time_step_eq (cutoff : Int) (acc : List ContentItem)
    (i : ContentItem) :
    filter_by_time_step cutoff acc i
      = if time_keep cutoff i then acc ++ [i] else acc := by
  cases hpub : i.published_at with
  | none => simp [filter_by_time_step, time_keep, hpub]
  | some pub =>
      by_cases hcmp :
          cutoff < (if pub.aware then pub else { pub with aware := true }).usec
      · simp [filter_by_time_step, time_keep, hpub, hcmp]
      · simp [filter_by_time_step, time_keep, hpub, hcmp]

theorem filter_by_time_go (cutoff : Int) (items : List ContentItem) :
    ∀ acc : List ContentItem,
      items.foldl (filter_by_time_step cutoff) acc
      = acc ++ items.filter (time_keep cutoff) := by
  induction items with
  | nil => intro acc; simp
  | cons i rest ih =>
      intro acc
      rw [List.foldl_cons, filter_by_time_step_eq, List.filter_cons]
      by_cases hk : time_keep cutoff i
      · simp [hk, ih, List.append_assoc]
      · simp [hk, ih]

theorem filter_by_time_eq_filter (now hours : Int) (items : List ContentItem) :
    filter_by_time now hours items
      = items.filter (time_keep (now - hours * 3600 * 1000000)) := by
  rw [filter_by_time, filter_by_time_go]
  simp

theorem filter_recently_shown_nil (items : List ContentItem) :
    filter_recently_shown [] items = items :=
  List.filter_eq_self.mpr (fun _ _ => rfl)

/-! ### Claims -/

/-- Claim C4: for any list of configured source adapters, `fetch_all`
returns exactly the concatenation of the successful adapters' record lists
(failed adapters contribute zero records), and the attempted-sources list
reported by the pipeline lists every adapter's name regardless of success,
so it has length N. -/
theorem claim_C4_fetch_isolation (sources : List Source) :
    fetch_all sources
      = (sources.filterMap (fun s => s.fetch_result.toOption)).flatten
    ∧ sources_checked_of sources = sources.map (fun s => s.source_name)
    ∧ (sources_checked_of sources).length = sources.length := by
  refine ⟨?_, rfl, ?_⟩
  · rw [fetch_all, fetch_all_go]; simp
  · simp [sources_checked_of]

/-- Claim C9: `analyze_item` mutates only the analysis fields
(`relevance_score`, `insight_summary`, `actionable_ideas`); every other
field of the item — in particular `id`, `url`, `title`, `source_type`,
`source_name` and `published_at` — is unchanged under every outcome. -/
theorem claim_C9_analysis_frame (o : AnalysisOutcome) (item : ContentItem) :
    (analyze_item o item).id = item.id
    ∧ (analyze_item o item).url = item.url
    ∧ (analyze_item o item).title = item.title
    ∧ (analyze_item o item).source_type = item.source_type
    ∧ (analyze_item o item).source_name = item.source_name
    ∧ (analyze_item o item).published_at = item.published_at
    ∧ (analyze_item o item).content_type = item.content_type
    ∧ (analyze_item o item).author = item.author
    ∧ (analyze_item o item).fetched_at = item.fetched_at
    ∧ (analyze_item o item).summary = item.summary
    ∧ (analyze_item o item).full_text = item.full_text
    ∧ (analyze_item o item).tags = item.tags
    ∧ (analyze_item o item).engagement = item.engagement := by
  cases o <;>
    exact ⟨rfl, rfl, rfl, rfl, rfl, rfl, rfl, rfl, rfl, rfl, rfl, rfl, rfl⟩

/-- Claim C2: when the brief-history collaborator is unavailable, the
cross-run deduplication degrades to a no-op (the seen-URL set is the empty
set), and the pipeline runs to completion producing the same analyzed
output as with an empty history — same-run deduplication still applied —
together with the full attempted-sources list. -/
theorem claim_C2_history_unavailable (sources : List Source) (now hours : Int)
    (outcomes : ContentItem → AnalysisOutcome) (score : ContentItem → ℚ) :
    aggregate_and_analyze sources now hours .unavailable outcomes score
      = aggregate_and_analyze sources now hours (.available []) outcomes score
    ∧ (aggregate_and_analyze sources now hours .unavailable outcomes score).1
      = batch_analyze outcomes score
          (deduplicate (filter_by_time now hours (fetch_all sources)))
    ∧ (aggregate_and_analyze sources now hours .unavailable outcomes score).2
      = sources_checked_of sources := by
  refine ⟨rfl, ?_, rfl⟩
  simp only [aggregate_and_analyze, get_recently_shown_urls,
    filter_recently_shown_nil]

/-- Claim C3: cross-run suppression — every record whose URL is in the
seen-URL set is absent from the output of the deduplication stage,
regardless of its other fields. -/
theorem claim_C3_cross_run_suppression (seen : List String)
    (items : List ContentItem) (R : ContentItem) (h : R.url ∈ seen) :
    R ∉ filter_recently_shown seen (deduplicate items) := by
  intro hmem
  have hpred := (List.mem_filter.1 hmem).2
  have hcontains : seen.contains R.url = true := List.elem_iff.2 h
  rw [hcontains] at hpred
  simp at hpred

/-- Witness for claim C3: with `https://example.com/nyt0` in the seen set,
the record carrying that URL is suppressed from the post-dedup output. -/
theorem claim_C3_witness :
    witSeenItemC3 ∉
      filter_recently_shown [witSeenItemC3.url]
        (deduplicate [witSeenItemC3, witFreshItemC3]) :=
  claim_C3_cross_run_suppression [witSeenItemC3.url]
    [witSeenItemC3, witFreshItemC3] witSeenItemC3 (by decide)

/-- Claim C6: the Time Filter returns exactly the subsequence of its input
retaining records with no publication timestamp and records whose
timestamp — normalised to UTC when zoneless — is strictly after
`now - window`; in particular a record exactly at the boundary is excluded
and one a microsecond after it is included. -/
theorem claim_C6_time_filter (now hours : Int) (items : List ContentItem) :
    filter_by_time now hours items
      = items.filter (time_keep (now - hours * 3600 * 1000000))
    ∧ (filter_by_time now hours items).Sublist items
    ∧ (∀ i, i ∈ items → i.published_at = none →
        i ∈ filter_by_time now hours items)
    ∧ (∀ i b, i ∈ items →
        i.published_at = some { usec := now - hours * 3600 * 1000000, aware := b } →
        i ∉ filter_by_time now hours items)
    ∧ (∀ i b, i ∈ items →
        i.published_at
          = some { usec := now - hours * 3600 * 1000000 + 1, aware := b } →
        i ∈ filter_by_time now hours items) := by
  have heq := filter_by_time_eq_filter now hours items
  refine ⟨heq, ?_, ?_, ?_, ?_⟩
  · rw [heq]; exact List.filter_sublist items
  · intro i hi hnone
    rw [heq]
    exact List.mem_filter.2 ⟨hi, by simp [time_keep, hnone]⟩
  · intro i b hi hsome hmem
    rw [heq] at hmem
    have := (List.mem_filter.1 hmem).2
    rw [time_keep, hsome] at this
    cases b <;> simp at this
  · intro i b hi hsome
    rw [heq]
    refine List.mem_filter.2 ⟨hi, ?_⟩
    rw [time_keep, hsome]
    cases b <;> simp

/-- Witness for claim C6 at `now = 0`, `hours = 0`: the timestampless record
passes, the boundary record is excluded, the record one microsecond later
passes. -/
theorem claim_C6_witness :
    witNoTimeItem ∈ filter_by_time 0 0 witTimeItems
    ∧ witBoundaryItem ∉ filter_by_time 0 0 witTimeItems
    ∧ witAfterItem ∈ filter_by_time 0 0 witTimeItems :=
  ⟨(claim_C6_time_filter 0 0 witTimeItems).2.2.1 witNoTimeItem (by decide) rfl,
   (claim_C6_time_filter 0 0 witTimeItems).2.2.2.1 witBoundaryItem true
     (by decide) (by decide),
   (claim_C6_time_filter 0 0 witTimeItems).2.2.2.2 witAfterItem false
     (by decide) (by decide)⟩

theorem dedupGo_mem {y : ContentItem} :
    ∀ (l : List ContentItem) (seen : List String),
      y ∈ dedupGo seen l → y ∈ l ∧ y.url ∉ seen := by
  intro l
  induction l with
  | nil => intro seen h; simp [dedupGo] at h
  | cons i rest ih =>
      intro seen h
      rw [dedupGo] at h
      by_cases hseen : i.url ∈ seen
      · rw [if_pos hseen] at h
        obtain ⟨h1, h2⟩ := ih seen h
        exact ⟨List.mem_cons_of_mem i h1, h2⟩
      · rw [if_neg hseen] at h
        rcases List.mem_cons.1 h with heq | htail
        · subst heq; exact ⟨List.mem_cons_self y rest, hseen⟩
        · obtain ⟨h1, h2⟩ := ih (i.url :: seen) htail
          exact ⟨List.mem_cons_of_mem i h1,
            fun hc => h2 (List.mem_cons_of_mem i.url hc)⟩

theorem dedupGo_sublist :
    ∀ (l : List ContentItem) (seen : List String),
      (dedupGo seen l).Sublist l := by
  intro l
  induction l with
  | nil => intro seen; simp [dedupGo]
  | cons i rest ih =>
      intro seen
      rw [dedupGo]
      by_cases hseen : i.url ∈ seen
      · rw [if_pos hseen]
        exact (ih seen).cons i
      · rw [if_neg hseen]
        exact (ih (i.url :: seen)).cons₂ i

theorem dedupGo_nodup_urls :
    ∀ (l : List ContentItem) (seen : List String),
      ((dedupGo seen l).map (fun i => i.url)).Nodup := by
  intro l
  induction l with
  | nil => intro seen; simp [dedupGo]
  | cons i rest ih =>
      intro seen
      rw [dedupGo]
      by_cases hseen : i.url ∈ seen
      · rw [if_pos hseen]; exact ih seen
      · rw [if_neg hseen]
        rw [List.map_cons, List.nodup_cons]
        refine ⟨?_, ih (i.url :: seen)⟩
        intro hc
        obtain ⟨y, hy, hyurl⟩ := List.mem_map.1 hc
        have := (dedupGo_mem rest (i.url :: seen) hy).2
        exact this (hyurl ▸ List.mem_cons_self i.url seen)

theorem dedupGo_covers :
    ∀ (l : List ContentItem) (seen : List String) (x : ContentItem),
      x ∈ l → x.url ∈ seen ∨ ∃ y, y ∈ dedupGo seen l ∧ y.url = x.url := by
  intro l
  induction l with
  | nil => intro seen x hx; simp at hx
  | cons i rest ih =>
      intro seen x hx
      rw [dedupGo]
      by_cases hseen : i.url ∈ seen
      · rw [if_pos hseen]
        rcases List.mem_cons.1 hx with heq | htail
        · subst heq; exact Or.inl hseen
        · exact ih seen x htail
      · rw [if_neg hseen]
        rcases List.mem_cons.1 hx with heq | htail
        · subst heq
          exact Or.inr ⟨x, List.mem_cons_self x _, rfl⟩
        · rcases ih (i.url :: seen) x htail with hin | ⟨y, hy, hyurl⟩
          · rcases List.mem_cons.1 hin with hi | hs
            · exact Or.inr ⟨i, List.mem_cons_self i _, hi.symm⟩
            · exact Or.inl hs
          · exact Or.inr ⟨y, List.mem_cons_of_mem i hy, hyurl⟩

theorem dedupGo_first_occurrence :
    ∀ (l : List ContentItem) (seen : List String) (y : ContentItem),
      y ∈ dedupGo seen l →
      ∃ l1 l2, l = l1 ++ y :: l2 ∧ ∀ z ∈ l1, z.url ≠ y.url := by
  intro l
  induction l with
  | nil => intro seen y hy; simp [dedupGo] at hy
  | cons i rest ih =>
      intro seen y hy
      rw [dedupGo] at hy
      by_cases hseen : i.url ∈ seen
      · rw [if_pos hseen] at hy
        obtain ⟨l1, l2, hsplit, hne⟩ := ih seen y hy
        have hyurl := (dedupGo_mem rest seen hy).2
        refine ⟨i :: l1, l2, by rw [hsplit]; rfl, ?_⟩
        intro z hz
        rcases List.mem_cons.1 hz with heq | htail
        · subst heq; intro hc; exact hyurl (hc ▸ hseen)
        · exact hne z htail
      · rw [if_neg hseen] at hy
        rcases List.mem_cons.1 hy with heq | htail
        · subst heq
          exact ⟨[], rest, rfl, by intro z hz; simp at hz⟩
        · obtain ⟨l1, l2, hsplit, hne⟩ := ih (i.url :: seen) y htail
          have hyurl := (dedupGo_mem rest (i.url :: seen) htail).2
          refine ⟨i :: l1, l2, by rw [hsplit]; rfl, ?_⟩
          intro z hz
          rcases List.mem_cons.1 hz with heq | htail'
          · subst heq
            intro hc
            exact hyurl (hc ▸ List.mem_cons_self z.url seen)
          · exact hne z htail'

theorem dedupGo_fixed :
    ∀ (l : List ContentItem) (seen : List String),
      (∀ y ∈ l, y.url ∉ seen) → ((l.map (fun i => i.url)).Nodup) →
      dedupGo seen l = l := by
  intro l
  induction l with
  | nil => intro seen _ _; rfl
  | cons i rest ih =>
      intro seen hout hnodup
      rw [dedupGo, if_neg (hout i (List.mem_cons_self i rest))]
      rw [List.map_cons, List.nodup_cons] at hnodup
      congr 1
      refine ih (i.url :: seen) ?_ hnodup.2
      intro y hy
      intro hc
      rcases List.mem_cons.1 hc with heq | hs
      · exact hnodup.1 (heq ▸ List.mem_map.2 ⟨y, hy, rfl⟩)
      · exact hout y (List.mem_cons_of_mem i hy) hs

/-- Claim C7: same-run deduplication keeps exactly the first occurrence of
each distinct URL, preserving encounter order: the output is an
order-preserving subsequence of the input with pairwise-distinct URLs,
every kept record is the first record of the input carrying its URL, every
input URL is represented, and the Deduplicator is idempotent on its own
output. -/
theorem claim_C7_dedup (items : List ContentItem) :
    (deduplicate items).Sublist items
    ∧ ((deduplicate items).map (fun i => i.url)).Nodup
    ∧ (∀ x, x ∈ items → ∃ y, y ∈ deduplicate items ∧ y.url = x.url)
    ∧ (∀ y, y ∈ deduplicate items →
        ∃ l1 l2, items = l1 ++ y :: l2 ∧ ∀ z ∈ l1, z.url ≠ y.url)
    ∧ deduplicate (deduplicate items) = deduplicate items := by
  refine ⟨dedupGo_sublist items [], dedupGo_nodup_urls items [], ?_, ?_, ?_⟩
  · intro x hx
    rcases dedupGo_covers items [] x hx with hin | hfound
    · simp at hin
    · exact hfound
  · intro y hy
    exact dedupGo_first_occurrence items [] y hy
  · exact dedupGo_fixed (deduplicate items) []
      (fun y _ => by simp) (dedupGo_nodup_urls items [])

/-- Witness for claim C7: in a batch whose third record repeats the first
URL, the repeated URL is still represented in the deduplicated output, and
deduplication is idempotent on that batch. -/
theorem claim_C7_witness :
    (∃ y, y ∈ deduplicate witDedupItems ∧ y.url = witDupItem.url)
    ∧ deduplicate (deduplicate witDedupItems) = deduplicate witDedupItems :=
  ⟨(claim_C7_dedup witDedupItems).2.2.1 witDupItem (by decide),
   (claim_C7_dedup witDedupItems).2.2.2.2⟩

/-- Claim C5 (amended): if the analysis call for an item fails — API
exception or unparseable response — `analyze_item` never raises past its
boundary and returns the item annotated with the conservative default
score 0.3 and an explanatory marker; the item enters ranking, but because
0.3 is below the 0.35 relevance cutoff of `generate_brief`, it is excluded
from the assembled brief rather than flowing through assembly. -/
theorem claim_C5_analysis_failure (item : ContentItem) (o : AnalysisOutcome)
    (h : o = .apiFailure ∨ o = .parseFailure) :
    (analyze_item o item).relevance_score = some (mkRat 3 10)
    ∧ ((analyze_item o item).insight_summary = some "Analysis failed - API error"
       ∨ (analyze_item o item).insight_summary
           = some "Analysis failed - invalid JSON response")
    ∧ ∀ l, analyze_item o item ∉ relevant_items l := by
  have hscore : (analyze_item o item).relevance_score = some (mkRat 3 10) := by
    rcases h with h | h <;> subst h <;> rfl
  refine ⟨hscore, ?_, ?_⟩
  · rcases h with h | h <;> subst h
    · exact Or.inl rfl
    · exact Or.inr rfl
  · intro l hmem
    have h2 := (List.mem_filter.1 hmem).2
    rw [hscore] at h2
    simp at h2
    norm_num at h2

/-- Counterexample for claim C5 as stated: a record whose analysis call
fails gets score 0.3, which is below the 0.35 cutoff of `generate_brief`,
so the record appears neither in the relevance-filtered pool nor in the
headline tier nor in the quick-links list — it is dropped from the brief. -/
theorem claim_C5_counterexample :
    (analyze_item .apiFailure cexItemC5).relevance_score = some (mkRat 3 10)
    ∧ (analyze_item .apiFailure cexItemC5).insight_summary
        = some "Analysis failed - API error"
    ∧ relevant_items [analyze_item .apiFailure cexItemC5] = []
    ∧ whats_moving_items [analyze_item .apiFailure cexItemC5] = []
    ∧ worth_a_click [analyze_item .apiFailure cexItemC5] = [] := by
  decide

/-- Witness for claim C5 (amended) at a concrete record and the API-failure
outcome. -/
theorem claim_C5_witness :
    (analyze_item .apiFailure (mkItem .reddit 1)).relevance_score
      = some (mkRat 3 10)
    ∧ analyze_item .apiFailure (mkItem .reddit 1)
        ∉ relevant_items [analyze_item .apiFailure (mkItem .reddit 1)] :=
  ⟨(claim_C5_analysis_failure (mkItem .reddit 1) .apiFailure (Or.inl rfl)).1,
   (claim_C5_analysis_failure (mkItem .reddit 1) .apiFailure (Or.inl rfl)).2.2
     [analyze_item .apiFailure (mkItem .reddit 1)]⟩

/-- Claim C10: in the brief produced by `generate_brief`, `worth_a_click`
holds at most 15 items and is disjoint (by id) from the items selected for
the `whats_moving` headline tier. -/
theorem claim_C10_worth_a_click (items : List ContentItem) :
    (worth_a_click items).length ≤ 15
    ∧ ∀ x, x ∈ worth_a_click items → ∀ y, y ∈ whats_moving_items items →
        x.id ≠ y.id := by
  constructor
  · exact List.length_take_le 15 _
  · intro x hx y hy heq
    have hx' : x ∈ (relevant_items items).filter
        (fun i =>
          !(((whats_moving_items items).map (fun i => i.id)).contains i.id)) :=
      List.mem_of_mem_take hx
    have hpred := (List.mem_filter.1 hx').2
    have hyid : y.id ∈ (whats_moving_items items).map (fun i => i.id) :=
      List.mem_map.2 ⟨y, hy, rfl⟩
    rw [← heq] at hyid
    have hcontains :
        ((whats_moving_items items).map (fun i => i.id)).contains x.id = true :=
      List.elem_iff.2 hyid
    rw [hcontains] at hpred
    simp at hpred

/-- Witness for claim C10: on a pool of eight relevant records of one source
type, the headline tier takes the first seven and the eighth lands in
`worth_a_click` with an id different from the headline items. -/
theorem claim_C10_witness :
    mkScoredItem 7 ∈ worth_a_click witPoolC10
    ∧ mkScoredItem 0 ∈ whats_moving_items witPoolC10
    ∧ (mkScoredItem 7).id ≠ (mkScoredItem 0).id :=
  ⟨by decide, by decide,
   (claim_C10_worth_a_click witPoolC10).2 (mkScoredItem 7) (by decide)
     (mkScoredItem 0) (by decide)⟩

theorem categorize_step_preserves (excl : List String) (st : CatState)
    (i : ContentItem)
    (h1 : ∀ k, (st.sections k).length ≤ section_max k)
    (h2 : ∀ k n, (st.sections k).countP (fun x => decide (x.source_name = n))
        = st.counts k n)
    (h3 : ∀ k n, st.counts k n ≤ 2) :
    (∀ k, ((categorize_step excl st i).sections k).length ≤ section_max k)
    ∧ (∀ k n, ((categorize_step excl st i).sections k).countP
          (fun x => decide (x.source_name = n))
        = (categorize_step excl st i).counts k n)
    ∧ (∀ k n, (categorize_step excl st i).counts k n ≤ 2) := by
  by_cases hurl : i.url ∈ excl
  · simp only [categorize_step, if_pos hurl]
    exact ⟨h1, h2, h3⟩
  · by_cases hlen :
        (st.sections (target_of i)).length < section_max (target_of i)
    · by_cases hcnt : st.counts (target_of i) i.source_name < 2
      · simp only [categorize_step, if_neg hurl, if_pos hlen, if_pos hcnt]
        refine ⟨?_, ?_, ?_⟩
        · intro k
          by_cases hk : k = target_of i
          · subst hk
            simp
            omega
          · simpa [hk] using h1 k
        · intro k n
          by_cases hk : k = target_of i
          · subst hk
            by_cases hn : n = i.source_name
            · subst hn
              simp [List.countP_append, h2]
            · have hn' : i.source_name ≠ n := fun h => hn h.symm
              simp [hn, hn', List.countP_append, h2]
          · have hk' : ¬(k = target_of i ∧ n = i.source_name) :=
              fun hc => hk hc.1
            simpa [hk, hk'] using h2 k n
        · intro k n
          by_cases hcond : k = target_of i ∧ n = i.source_name
          · obtain ⟨hk, hn⟩ := hcond
            subst hk
            subst hn
            simp
            omega
          · simpa [hcond] using h3 k n
      · simp only [categorize_step, if_neg hurl, if_pos hlen, if_neg hcnt]
        exact ⟨h1, h2, h3⟩
    · simp only [categorize_step, if_neg hurl, if_neg hlen]
      exact ⟨h1, h2, h3⟩

theorem categorize_invariant (excl : List String) (items : List ContentItem) :
    ∀ st : CatState,
      (∀ k, (st.sections k).length ≤ section_max k) →
      (∀ k n, (st.sections k).countP (fun x => decide (x.source_name = n))
          = st.counts k n) →
      (∀ k n, st.counts k n ≤ 2) →
      (∀ k, ((items.foldl (categorize_step excl) st).sections k).length
          ≤ section_max k)
      ∧ (∀ k n, ((items.foldl (categorize_step excl) st).sections k).countP
            (fun x => decide (x.source_name = n)) ≤ 2) := by
  induction items with
  | nil =>
      intro st h1 h2 h3
      exact ⟨h1, fun k n => (h2 k n) ▸ h3 k n⟩
  | cons i rest ih =>
      intro st h1 h2 h3
      rw [List.foldl_cons]
      obtain ⟨g1, g2, g3⟩ := categorize_step_preserves excl st i h1 h2 h3
      exact ih (categorize_step excl st i) g1 g2 g3

theorem insertDesc_perm {α : Type} (f : α → ℚ) (a : α) (l : List α) :
    (insertDesc f a l).Perm (a :: l) := by
  induction l with
  | nil => exact List.Perm.refl _
  | cons b l ih =>
      rw [insertDesc]
      by_cases h : f b ≤ f a
      · rw [if_pos h]
      · rw [if_neg h]
        exact (ih.cons b).trans (List.Perm.swap a b l)

theorem sortDesc_perm {α : Type} (f : α → ℚ) (l : List α) :
    (sortDesc f l).Perm l := by
  induction l with
  | nil => exact List.Perm.refl _
  | cons a l ih =>
      rw [sortDesc]
      exact (insertDesc_perm f a (sortDesc f l)).trans (ih.cons a)

theorem addToGroups_keys (gs : List (SourceType × List ContentItem))
    (i : ContentItem) :
    (addToGroups gs i).map Prod.fst
      = if i.source_type ∈ gs.map Prod.fst then gs.map Prod.fst
        else gs.map Prod.fst ++ [i.source_type] := by
  induction gs with
  | nil => simp [addToGroups]
  | cons g rest ih =>
      obtain ⟨k, v⟩ := g
      rw [addToGroups]
      by_cases hk : k = i.source_type
      · subst hk
        simp
      · have hne : i.source_type ≠ k := fun h => hk h.symm
        rw [if_neg hk]
        simp only [List.map_cons, ih]
        by_cases hmem : i.source_type ∈ rest.map Prod.fst
        · simp [hmem, hne]
        · simp [hmem, hne]

theorem addToGroups_keys_nodup (gs : List (SourceType × List ContentItem))
    (i : ContentItem) (h : (gs.map Prod.fst).Nodup) :
    ((addToGroups gs i).map Prod.fst).Nodup := by
  rw [addToGroups_keys]
  by_cases hmem : i.source_type ∈ gs.map Prod.fst
  · simpa [hmem] using h
  · simp [hmem, List.nodup_append, h]

theorem addToGroups_mem_update (gs : List (SourceType × List ContentItem))
    (i : ContentItem) (t : SourceType) (l : List ContentItem)
    (hnd : (gs.map Prod.fst).Nodup) (hl : (t, l) ∈ gs) :
    (t, if i.source_type = t then l ++ [i] else l) ∈ addToGroups gs i := by
  induction gs with
  | nil => simp at hl
  | cons g rest ih =>
      obtain ⟨k, v⟩ := g
      rw [List.map_cons, List.nodup_cons] at hnd
      rw [addToGroups]
      rcases List.mem_cons.1 hl with heq | htail
      · have ht : k = t := (congrArg Prod.fst heq).symm
        have hv : v = l := (congrArg Prod.snd heq).symm
        subst ht
        subst hv
        by_cases hk : i.source_type = k
        · rw [if_pos hk, if_pos hk.symm]
          exact List.mem_cons_self _ _
        · rw [if_neg hk, if_neg (fun h => hk h.symm)]
          exact List.mem_cons_self _ _
      · have htk : t ∈ rest.map Prod.fst :=
          List.mem_map.2 ⟨(t, l), htail, rfl⟩
        have hkt : k ≠ t := fun h => hnd.1 (h ▸ htk)
        by_cases hk : k = i.source_type
        · subst hk
          rw [if_pos rfl]
          have : i.source_type ≠ t := fun h => hkt h
          rw [if_neg this]
          exact List.mem_cons_of_mem _ htail
        · rw [if_neg hk]
          exact List.mem_cons_of_mem _ (ih hnd.2 htail)

theorem addToGroups_mem_new (gs : List (SourceType × List ContentItem))
    (i : ContentItem) (t : SourceType)
    (hout : t ∉ gs.map Prod.fst) (ht : i.source_type = t) :
    (t, [i]) ∈ addToGroups gs i := by
  induction gs with
  | nil => subst ht; simp [addToGroups]
  | cons g rest ih =>
      obtain ⟨k, v⟩ := g
      rw [List.map_cons] at hout
      have hkt : k ≠ t := fun h => hout (h ▸ List.mem_cons_self t _)
      have hout' : t ∉ rest.map Prod.fst :=
        fun h => hout (List.mem_cons_of_mem k h)
      rw [addToGroups]
      have : k ≠ i.source_type := fun h => hkt (h.trans ht)
      rw [if_neg this]
      exact List.mem_cons_of_mem _ (ih hout')

theorem addToGroups_not_mem_keys (gs : List (SourceType × List ContentItem))
    (i : ContentItem) (t : SourceType)
    (hout : t ∉ gs.map Prod.fst) (ht : t ≠ i.source_type) :
    t ∉ (addToGroups gs i).map Prod.fst := by
  rw [addToGroups_keys]
  by_cases hmem : i.source_type ∈ gs.map Prod.fst
  · simpa [hmem] using hout
  · simp [hmem, hout, ht]

theorem groupBy_fold (t : SourceType) :
    ∀ (items : List ContentItem) (gs : List (SourceType × List ContentItem)),
      (gs.map Prod.fst).Nodup →
      (∀ l, (t, l) ∈ gs →
        (t, l ++ items.filter (fun i => decide (i.source_type = t)))
          ∈ items.foldl addToGroups gs)
      ∧ (t ∉ gs.map Prod.fst →
          0 < items.countP (fun i => decide (i.source_type = t)) →
          (t, items.filter (fun i => decide (i.source_type = t)))
            ∈ items.foldl addToGroups gs) := by
  intro items
  induction items with
  | nil =>
      intro gs hnd
      constructor
      · intro l hl; simpa using hl
      · intro _ h0; simp at h0
  | cons i rest ih =>
      intro gs hnd
      have hnd' := addToGroups_keys_nodup gs i hnd
      rw [List.foldl_cons]
      constructor
      · intro l hl
        by_cases ht : i.source_type = t
        · have hmem := addToGroups_mem_update gs i t l hnd hl
          rw [if_pos ht] at hmem
          have hres := (ih (addToGroups gs i) hnd').1 (l ++ [i]) hmem
          rw [List.filter_cons, if_pos (by simp [ht])]
          simpa [List.append_assoc] using hres
        · have hmem := addToGroups_mem_update gs i t l hnd hl
          rw [if_neg ht] at hmem
          have hres := (ih (addToGroups gs i) hnd').1 l hmem
          rw [List.filter_cons, if_neg (by simp [ht])]
          exact hres
      · intro hout h0
        by_cases ht : i.source_type = t
        · have hmem := addToGroups_mem_new gs i t hout ht
          have hres := (ih (addToGroups gs i) hnd').1 [i] hmem
          rw [List.filter_cons, if_pos (by simp [ht])]
          simpa using hres
        · have hout' := addToGroups_not_mem_keys gs i t hout
            (fun h => ht h.symm)
          have h0' : 0 < rest.countP (fun i => decide (i.source_type = t)) := by
            simpa [List.countP_cons, ht] using h0
          have hres := (ih (addToGroups gs i) hnd').2 hout' h0'
          rw [List.filter_cons, if_neg (by simp [ht])]
          exact hres

theorem group_by_source_type_mem (items : List ContentItem) (t : SourceType)
    (h0 : 0 < items.countP (fun i => decide (i.source_type = t))) :
    (t, items.filter (fun i => decide (i.source_type = t)))
      ∈ group_by_source_type items :=
  (groupBy_fold t items [] (by simp)).2 (by simp) h0

theorem countP_le_countP_take_append (p : ContentItem → Bool)
    (A R : List ContentItem) (n : Nat) (hA : A.length ≤ n) :
    A.countP p ≤ ((A ++ R).take n).countP p := by
  rw [List.take_append_eq_append_take, List.take_of_length_le hA,
    List.countP_append]
  exact Nat.le_add_right _ _

theorem batch_select_first_pass_preserved (score : ContentItem → ℚ)
    (items : List ContentItem) (n : Nat) :
    ∃ R, batch_select score items n
      = (batch_first_pass score items ++ R).take n := by
  by_cases h : 0 < n - (batch_first_pass score items).length
  · exact ⟨(sortDesc score (items.filter
      (fun i => !(((batch_first_pass score items).map
        (fun i => i.id)).contains i.id)))).take
          (n - (batch_first_pass score items).length),
      by simp [batch_select, h]⟩
  · exact ⟨[], by simp [batch_select, h]⟩

/-- Claim C1 (amended): for every pre-score function, input pool with at
most 10 distinct source types present (so the 5-per-type floor fits within
the cap of 50) and every source type with at least 5 records in the pool,
at least 5 records of that type appear in the selection returned by
`batch_analyze`'s selection phase — even if every record of that type
pre-scores below every record of the other types, since the bound holds
for every score function. -/
theorem claim_C1_diversity_floor (score : ContentItem → ℚ)
    (items : List ContentItem) (t : SourceType)
    (hgroups : (group_by_source_type items).length ≤ 10)
    (hcount : 5 ≤ items.countP (fun i => decide (i.source_type = t))) :
    5 ≤ (batch_select score items 50).countP
        (fun i => decide (i.source_type = t)) := by
  have hmemG := group_by_source_type_mem items t
    (lt_of_lt_of_le (by norm_num) hcount)
  have hmemBS : (t, sortDesc score
      (items.filter (fun i => decide (i.source_type = t))))
      ∈ (group_by_source_type items).map (fun g => (g.1, sortDesc score g.2)) :=
    List.mem_map.2 ⟨_, hmemG, rfl⟩
  have hmemP : (sortDesc score
      (items.filter (fun i => decide (i.source_type = t)))).take 5
      ∈ ((group_by_source_type items).map
          (fun g => (g.1, sortDesc score g.2))).map (fun g => g.2.take 5) :=
    List.mem_map.2 ⟨_, hmemBS, rfl⟩
  have hlenfilter : 5 ≤ (items.filter
      (fun i => decide (i.source_type = t))).length := by
    rw [← List.countP_eq_length_filter]
    exact hcount
  have hlensort : (sortDesc score (items.filter
      (fun i => decide (i.source_type = t)))).length
      = (items.filter (fun i => decide (i.source_type = t))).length :=
    (sortDesc_perm score _).length_eq
  have hallpiece : ∀ x ∈ (sortDesc score (items.filter
      (fun i => decide (i.source_type = t)))).take 5,
      (fun i => decide (i.source_type = t)) x = true := by
    intro x hx
    have hx1 := List.mem_of_mem_take hx
    have hx2 := ((sortDesc_perm score _).mem_iff).1 hx1
    exact (List.mem_filter.1 hx2).2
  have hcntpiece : ((sortDesc score (items.filter
      (fun i => decide (i.source_type = t)))).take 5).countP
      (fun i => decide (i.source_type = t)) = 5 := by
    rw [List.countP_eq_length.2 hallpiece, List.length_take]
    omega
  have hfirstcnt : 5 ≤ (batch_first_pass score items).countP
      (fun i => decide (i.source_type = t)) := by
    rw [batch_first_pass]
    simp only [List.countP_flatten]
    have hmemC : ((sortDesc score (items.filter
        (fun i => decide (i.source_type = t)))).take 5).countP
        (fun i => decide (i.source_type = t))
        ∈ (((group_by_source_type items).map
            (fun g => (g.1, sortDesc score g.2))).map
              (fun g => g.2.take 5)).map
          (List.countP (fun i => decide (i.source_type = t))) :=
      List.mem_map.2 ⟨_, hmemP, rfl⟩
    calc 5 = _ := hcntpiece.symm
      _ ≤ _ := List.le_sum_of_mem hmemC
  have hfirstlen : (batch_first_pass score items).length ≤ 50 := by
    rw [batch_first_pass]
    simp only [List.length_flatten]
    have hb : ∀ x ∈ (((group_by_source_type items).map
        (fun g => (g.1, sortDesc score g.2))).map
          (fun g => g.2.take 5)).map List.length, x ≤ 5 := by
      intro x hx
      obtain ⟨lp, hlp, rfl⟩ := List.mem_map.1 hx
      obtain ⟨g, hg, rfl⟩ := List.mem_map.1 hlp
      exact List.length_take_le 5 g.2
    have hsum := List.sum_le_card_nsmul _ 5 hb
    simp only [List.length_map, smul_eq_mul] at hsum
    calc _ ≤ (group_by_source_type items).length * 5 := hsum
      _ ≤ 10 * 5 := Nat.mul_le_mul_right 5 hgroups
      _ = 50 := rfl
  obtain ⟨R, hR⟩ := batch_select_first_pass_preserved score items 50
  rw [hR]
  exact le_trans hfirstcnt
    (countP_le_countP_take_append _ _ R 50 hfirstlen)

/-- Counterexample for claim C1 as stated: with 11 source types of 5
records each (55 records), the unconditional 5-per-type first pass already
exceeds the cap of 50, and the final truncation to 50 removes the entire
last group — the podcast type has 5 records in the pool yet 0 records in
the selection.  The score function is the authority bucket, which equals
`item_score` on these records (no keywords, no timestamp, no engagement). -/
theorem claim_C1_counterexample :
    5 ≤ cexPoolC1.countP
        (fun i => decide (i.source_type = SourceType.podcast))
    ∧ (group_by_source_type cexPoolC1).length = 11
    ∧ (batch_select item_score_authority cexPoolC1 50).countP
        (fun i => decide (i.source_type = SourceType.podcast)) = 0 := by
  decide

/-- Witness for claim C1 (amended): a pool of 5 records of one source type
satisfies both hypotheses, and all 5 appear in the selection. -/
theorem claim_C1_witness :
    5 ≤ (batch_select item_score_authority witPoolC1 50).countP
        (fun i => decide (i.source_type = SourceType.arxiv)) :=
  claim_C1_diversity_floor item_score_authority witPoolC1 .arxiv
    (by decide) (by decide)

/-- Claim C8: every section produced by `_categorize_for_sections` respects
its maximum size (research 5, tools 6, industry news 6, other 8), and no
single source name contributes more than 2 items within any one section. -/
theorem claim_C8_section_caps (items : List ContentItem) (excl : List String) :
    (categorize_for_sections items excl .research).length ≤ 5
    ∧ (categorize_for_sections items excl .tools).length ≤ 6
    ∧ (categorize_for_sections items excl .industry_news).length ≤ 6
    ∧ (categorize_for_sections items excl .other).length ≤ 8
    ∧ ∀ k n, (categorize_for_sections items excl k).countP
        (fun x => decide (x.source_name = n)) ≤ 2 := by
  have h := categorize_invariant excl items
    { sections := fun _ => [], counts := fun _ _ => 0 }
    (fun k => Nat.zero_le _) (fun k n => rfl) (fun k n => Nat.zero_le _)
  exact ⟨h.1 .research, h.1 .tools, h.1 .industry_news, h.1 .other, h.2⟩

end IntelligenceBrief
